import Mathlib

/-!
Shallow embedding of the CTA backtesting core of the vnpy repository
(`src/vnpy/app/cta_strategy/backtesting.py` and
`src/vnpy/app/cta_strategy/template.py`).

Python floats (prices, volumes, positions, pnl) are modelled as rationals.
Python dicts with insertion-order iteration (the limit book, the stop book,
the trade ledger) are modelled as lists kept in insertion order.
Constant fields of a single run (symbol, exchange, gateway name) are omitted
from the records, as are fields the embedded functions never read.
-/

/-- Direction of an order or trade (`vnpy.trader.constant.Direction`). -/
inductive Direction where
  | long
  | short
deriving DecidableEq, Repr

/-- Offset of an order or trade (`vnpy.trader.constant.Offset`).
`open` is a Lean keyword, hence the trailing underscore. -/
inductive Offset where
  | none
  | open_
  | close
  | closeToday
deriving DecidableEq, Repr

/-- Status of a limit order (`vnpy.trader.constant.Status`). -/
inductive Status where
  | submitting
  | notTraded
  | partTraded
  | allTraded
  | cancelled
  | rejected
deriving DecidableEq, Repr

/-- Status of a stop order (`vnpy.app.cta_strategy.base.StopOrderStatus`). -/
inductive StopOrderStatus where
  | waiting
  | triggered
  | cancelled
deriving DecidableEq, Repr

/-- Commission mode (`vnpy.trader.constant.RateType`). -/
inductive RateType where
  | fixed
  | float
deriving DecidableEq, Repr

/-- Backtesting mode (`vnpy.app.cta_strategy.base.BacktestingMode`). -/
inductive BacktestingMode where
  | bar
  | tick
deriving DecidableEq, Repr

/-- A calendar datetime, reduced to the fields the engine inspects:
`datetime.day` (the day of month) and `datetime.date()` (the full date). -/
structure BTDateTime where
  year : ℕ
  month : ℕ
  day : ℕ
deriving DecidableEq, Repr

/-- `datetime.date()`: the calendar date as a (year, month, day) triple. -/
def BTDateTime.date (dt : BTDateTime) : ℕ × ℕ × ℕ :=
  (dt.year, dt.month, dt.day)

/-- A bar (`vnpy.trader.object.BarData`), reduced to the fields the
backtesting engine reads. -/
structure BarData where
  datetime : BTDateTime
  openPrice : ℚ
  highPrice : ℚ
  lowPrice : ℚ
  closePrice : ℚ
deriving DecidableEq, Repr

/-- A tick (`vnpy.trader.object.TickData`), reduced to the fields the
backtesting engine reads. -/
structure TickData where
  datetime : BTDateTime
  lastPrice : ℚ
  bidPrice1 : ℚ
  askPrice1 : ℚ
deriving DecidableEq, Repr

/-- A limit order (`vnpy.trader.object.OrderData`).  `orderid` is the integer
sequence number assigned by the engine. -/
structure OrderData where
  orderid : ℕ
  direction : Direction
  offset : Offset
  price : ℚ
  volume : ℚ
  traded : ℚ
  status : Status
deriving DecidableEq, Repr

/-- A trade (`vnpy.trader.object.TradeData`). -/
structure TradeData where
  tradeid : ℕ
  orderid : ℕ
  direction : Direction
  offset : Offset
  price : ℚ
  volume : ℚ
deriving DecidableEq, Repr

/-- A stop order (`vnpy.app.cta_strategy.base.StopOrder`).  The source forms
stop-order ids as the string `"STOP.<seq>"`; here the sequence number alone is
kept, the prefixed shape being modelled by the `VtOrderId` sum below. -/
structure StopOrder where
  stopOrderid : ℕ
  direction : Direction
  offset : Offset
  price : ℚ
  volume : ℚ
  status : StopOrderStatus
  vtOrderids : List ℕ
deriving DecidableEq, Repr

/-- An order id as returned to the strategy: either a plain limit order id or
a `"STOP."`-prefixed stop order id. -/
inductive VtOrderId where
  | limitId (n : ℕ)
  | stopId (n : ℕ)
deriving DecidableEq, Repr

/-- The mutable engine state that order submission, cancellation and the two
crossing scans of `BacktestingEngine` operate on. -/
structure BtEngineState where
  activeLimitOrders : List OrderData
  limitOrders : List OrderData
  activeStopOrders : List StopOrder
  stopOrders : List StopOrder
  limitOrderCount : ℕ
  stopOrderCount : ℕ
  tradeCount : ℕ
  trades : List TradeData
  pos : ℚ
deriving DecidableEq, Repr

/-! ### Crossing prices (`cross_limit_order` / `cross_stop_order` headers) -/

/-- The four prices `cross_limit_order` derives from the current data point. -/
structure LimitCrossPrices where
  longCrossPrice : ℚ
  shortCrossPrice : ℚ
  longBestPrice : ℚ
  shortBestPrice : ℚ
deriving DecidableEq, Repr

/-- Bar-mode limit crossing prices: low / high / open / open. -/
def limitCrossPricesBar (bar : BarData) : LimitCrossPrices :=
  ⟨bar.lowPrice, bar.highPrice, bar.openPrice, bar.openPrice⟩

/-- Tick-mode limit crossing prices: ask₁ / bid₁ / ask₁ / bid₁. -/
def limitCrossPricesTick (tick : TickData) : LimitCrossPrices :=
  ⟨tick.askPrice1, tick.bidPrice1, tick.askPrice1, tick.bidPrice1⟩

/-- The four prices `cross_stop_order` derives from the current data point. -/
structure StopCrossPrices where
  longCrossPrice : ℚ
  shortCrossPrice : ℚ
  longBestPrice : ℚ
  shortBestPrice : ℚ
deriving DecidableEq, Repr

/-- Bar-mode stop crossing prices: high / low / open / open. -/
def stopCrossPricesBar (bar : BarData) : StopCrossPrices :=
  ⟨bar.highPrice, bar.lowPrice, bar.openPrice, bar.openPrice⟩

/-- Tick-mode stop crossing prices: last price throughout. -/
def stopCrossPricesTick (tick : TickData) : StopCrossPrices :=
  ⟨tick.lastPrice, tick.lastPrice, tick.lastPrice, tick.lastPrice⟩

/-! ### Limit order crossing (`BacktestingEngine.cross_limit_order`) -/

/-- The `long_cross` condition of `cross_limit_order`. -/
def longLimitCross (p : LimitCrossPrices) (order : OrderData) : Prop :=
  order.direction = Direction.long ∧
    order.price ≥ p.longCrossPrice ∧ p.longCrossPrice > 0

instance (p : LimitCrossPrices) (order : OrderData) :
    Decidable (longLimitCross p order) := by
  unfold longLimitCross; infer_instance

/-- The `short_cross` condition of `cross_limit_order`. -/
def shortLimitCross (p : LimitCrossPrices) (order : OrderData) : Prop :=
  order.direction = Direction.short ∧
    order.price ≤ p.shortCrossPrice ∧ p.shortCrossPrice > 0

instance (p : LimitCrossPrices) (order : OrderData) :
    Decidable (shortLimitCross p order) := by
  unfold shortLimitCross; infer_instance

/-- A fill produced by the limit crossing scan: the trade price and the signed
position change delivered to the strategy. -/
structure LimitFill where
  tradePrice : ℚ
  posChange : ℚ
deriving DecidableEq, Repr

/-- The body of the `cross_limit_order` loop for one active order: first the
Submitting → NotTraded promotion (with its `on_order` push), then the cross
check; on a cross the order is marked fully traded and filled at
`min(order.price, long_best)` (Long) or `max(order.price, short_best)`
(Short).  Returns the updated order, the fill if one happened, and the list
of status mutations pushed to the strategy via `on_order`. -/
def crossLimitOne (p : LimitCrossPrices) (order : OrderData) :
    OrderData × Option LimitFill × List (Status × Status) :=
  let order1 :=
    if order.status = Status.submitting then
      { order with status := Status.notTraded }
    else order
  let events1 : List (Status × Status) :=
    if order.status = Status.submitting then
      [(Status.submitting, Status.notTraded)]
    else []
  if longLimitCross p order1 then
    ({ order1 with traded := order1.volume, status := Status.allTraded },
      some ⟨min order1.price p.longBestPrice, order1.volume⟩,
      events1 ++ [(order1.status, Status.allTraded)])
  else if shortLimitCross p order1 then
    ({ order1 with traded := order1.volume, status := Status.allTraded },
      some ⟨max order1.price p.shortBestPrice, -order1.volume⟩,
      events1 ++ [(order1.status, Status.allTraded)])
  else (order1, none, events1)

/-- Applies `crossLimitOne` to one active order and threads the engine state:
filled orders leave the active book and emit a trade with a fresh trade id,
unfilled orders stay (with the promoted status); the `limit_orders` ledger
sees the same mutation through the shared object. -/
def crossLimitStep (p : LimitCrossPrices) (st : BtEngineState)
    (order : OrderData) : BtEngineState :=
  let r := crossLimitOne p order
  let ledger := st.limitOrders.map fun q =>
    if q.orderid = order.orderid then r.1 else q
  match r.2.1 with
  | none =>
      { st with
        activeLimitOrders := st.activeLimitOrders ++ [r.1]
        limitOrders := ledger }
  | some fill =>
      { st with
        activeLimitOrders := st.activeLimitOrders
        limitOrders := ledger
        tradeCount := st.tradeCount + 1
        trades := st.trades ++
          [⟨st.tradeCount + 1, r.1.orderid, r.1.direction, r.1.offset,
            fill.tradePrice, r.1.volume⟩]
        pos := st.pos + fill.posChange }

/-- `BacktestingEngine.cross_limit_order`: scans a snapshot of the active
limit book in insertion order. -/
def crossLimitOrderBook (p : LimitCrossPrices) (st : BtEngineState) :
    BtEngineState :=
  st.activeLimitOrders.foldl (crossLimitStep p)
    { st with activeLimitOrders := [] }

/-! ### Stop order crossing (`BacktestingEngine.cross_stop_order`) -/

/-- The `long_cross` condition of `cross_stop_order` (no positivity guard). -/
def longStopCross (p : StopCrossPrices) (stop : StopOrder) : Prop :=
  stop.direction = Direction.long ∧ stop.price ≤ p.longCrossPrice

instance (p : StopCrossPrices) (stop : StopOrder) :
    Decidable (longStopCross p stop) := by
  unfold longStopCross; infer_instance

/-- The `short_cross` condition of `cross_stop_order`. -/
def shortStopCross (p : StopCrossPrices) (stop : StopOrder) : Prop :=
  stop.direction = Direction.short ∧ stop.price ≥ p.shortCrossPrice

instance (p : StopCrossPrices) (stop : StopOrder) :
    Decidable (shortStopCross p stop) := by
  unfold shortStopCross; infer_instance

/-- Everything `cross_stop_order` produces for one triggered stop order:
the synthesized already-filled limit order, the trade, the updated stop
order, and the signed position change. -/
structure StopTrigger where
  order : OrderData
  trade : TradeData
  stopAfter : StopOrder
  posChange : ℚ
deriving DecidableEq, Repr

/-- The body of the `cross_stop_order` loop for one active stop order, given
the current `limit_order_count` and `trade_count`: on a trigger a fresh order
is created directly with status AllTraded (its `traded` field keeps the
`OrderData` default 0, as in the source), the fill price is
`max(stop.price, long_best)` (Long) or `min(stop.price, short_best)` (Short),
and the stop order is marked Triggered with the new order id appended. -/
def crossStopOne (p : StopCrossPrices) (limitOrderCount tradeCount : ℕ)
    (stop : StopOrder) : Option StopTrigger :=
  if longStopCross p stop ∨ shortStopCross p stop then
    let order : OrderData :=
      { orderid := limitOrderCount + 1
        direction := stop.direction
        offset := stop.offset
        price := stop.price
        volume := stop.volume
        traded := 0
        status := Status.allTraded }
    let tradePrice :=
      if longStopCross p stop then max stop.price p.longBestPrice
      else min stop.price p.shortBestPrice
    let posChange :=
      if longStopCross p stop then stop.volume else -stop.volume
    some
      { order := order
        trade :=
          ⟨tradeCount + 1, order.orderid, order.direction, order.offset,
            tradePrice, order.volume⟩
        stopAfter :=
          { stop with
            vtOrderids := stop.vtOrderids ++ [order.orderid]
            status := StopOrderStatus.triggered }
        posChange := posChange }
  else none

/-- Applies `crossStopOne` to one active stop order and threads the engine
state: a triggered stop leaves the active stop book, its synthesized order
joins the `limit_orders` ledger (but not the active limit book), a trade is
appended, and the position moves. -/
def crossStopStep (p : StopCrossPrices) (st : BtEngineState)
    (stop : StopOrder) : BtEngineState :=
  match crossStopOne p st.limitOrderCount st.tradeCount stop with
  | none =>
      { st with activeStopOrders := st.activeStopOrders ++ [stop] }
  | some trig =>
      { st with
        activeStopOrders := st.activeStopOrders
        stopOrders := st.stopOrders.map fun s =>
          if s.stopOrderid = stop.stopOrderid then trig.stopAfter else s
        limitOrders := st.limitOrders ++ [trig.order]
        limitOrderCount := st.limitOrderCount + 1
        tradeCount := st.tradeCount + 1
        trades := st.trades ++ [trig.trade]
        pos := st.pos + trig.posChange }

/-- `BacktestingEngine.cross_stop_order`: scans a snapshot of the active stop
book in insertion order. -/
def crossStopOrderBook (p : StopCrossPrices) (st : BtEngineState) :
    BtEngineState :=
  st.activeStopOrders.foldl (crossStopStep p)
    { st with activeStopOrders := [] }

/-! ### The per-datum pipeline (`new_bar` / `new_tick`) -/

/-- The observable steps a data point is put through by `new_bar`/`new_tick`. -/
inductive BarStep where
  | crossLimit
  | crossStop
  | onSecondBar
  | onBar
  | onTick
  | updateDailyClose
deriving DecidableEq, Repr

/-- The strategy callback chosen by `new_bar`: `on_second_bar` when the
strategy declares `x_second < 60`, `on_bar` when `x_second == 60` or when the
attribute is missing (the `AttributeError` branch, modelled as `none`), and no
callback at all when `x_second > 60`. -/
def barCallbackSteps (xSecond : Option ℕ) : List BarStep :=
  match xSecond with
  | Option.none => [BarStep.onBar]
  | some n =>
      if n < 60 then [BarStep.onSecondBar]
      else if n = 60 then [BarStep.onBar]
      else []

/-- `BacktestingEngine.new_bar`: crosses the limit book, then the stop book,
then invokes the strategy callback, then updates the daily close.  Returns the
engine state after the data point, the step trace, and the engine position the
strategy callback observed (`none` when no callback ran). -/
def new_bar (xSecond : Option ℕ) (bar : BarData) (st : BtEngineState) :
    BtEngineState × List BarStep × Option ℚ :=
  let st1 := crossLimitOrderBook (limitCrossPricesBar bar) st
  let st2 := crossStopOrderBook (stopCrossPricesBar bar) st1
  let cb := barCallbackSteps xSecond
  (st2,
    [BarStep.crossLimit, BarStep.crossStop] ++ cb ++ [BarStep.updateDailyClose],
    if cb.isEmpty then Option.none else some st2.pos)

/-- `BacktestingEngine.new_tick`: crosses the limit book, then the stop book,
then invokes `on_tick`, then updates the daily close. -/
def new_tick (tick : TickData) (st : BtEngineState) :
    BtEngineState × List BarStep × Option ℚ :=
  let st1 := crossLimitOrderBook (limitCrossPricesTick tick) st
  let st2 := crossStopOrderBook (stopCrossPricesTick tick) st1
  (st2,
    [BarStep.crossLimit, BarStep.crossStop, BarStep.onTick,
      BarStep.updateDailyClose],
    some st2.pos)

/-! ### Order submission (`send_order` in template and engine) -/

/-- Modelled from the spec: the helper `round_to` from `vnpy.trader.utility`
is imported by `backtesting.py` but its module is not among the sources under
review; the spec defines it as `round_to(value, tick) = round(value / tick) ×
tick`. -/
def round_to (value target : ℚ) : ℚ :=
  ((round (value / target) : ℤ) : ℚ) * target

/-- `BacktestingEngine.send_limit_order`: allocates the next order id and
inserts a Submitting order into both the active limit book and the ledger. -/
def send_limit_order (st : BtEngineState) (direction : Direction)
    (offset : Offset) (price volume : ℚ) : BtEngineState × VtOrderId :=
  let order : OrderData :=
    { orderid := st.limitOrderCount + 1
      direction := direction
      offset := offset
      price := price
      volume := volume
      traded := 0
      status := Status.submitting }
  ({ st with
      limitOrderCount := st.limitOrderCount + 1
      activeLimitOrders := st.activeLimitOrders ++ [order]
      limitOrders := st.limitOrders ++ [order] },
    VtOrderId.limitId order.orderid)

/-- `BacktestingEngine.send_stop_order`: allocates the next stop order id and
inserts a Waiting stop order into both the active stop book and the ledger. -/
def send_stop_order (st : BtEngineState) (direction : Direction)
    (offset : Offset) (price volume : ℚ) : BtEngineState × VtOrderId :=
  let stop : StopOrder :=
    { stopOrderid := st.stopOrderCount + 1
      direction := direction
      offset := offset
      price := price
      volume := volume
      status := StopOrderStatus.waiting
      vtOrderids := [] }
  ({ st with
      stopOrderCount := st.stopOrderCount + 1
      activeStopOrders := st.activeStopOrders ++ [stop]
      stopOrders := st.stopOrders ++ [stop] },
    VtOrderId.stopId stop.stopOrderid)

/-- `BacktestingEngine.send_order`: snaps the price to the price tick with
`round_to`, then dispatches on the `stop` flag; always returns a one-element
id list. -/
def engine_send_order (pricetick : ℚ) (st : BtEngineState)
    (direction : Direction) (offset : Offset) (price volume : ℚ)
    (stop : Bool) : BtEngineState × List VtOrderId :=
  let price := round_to price pricetick
  if stop then
    let r := send_stop_order st direction offset price volume
    (r.1, [r.2])
  else
    let r := send_limit_order st direction offset price volume
    (r.1, [r.2])

/-- `CtaTemplate.send_order`: forwards to the engine when `trading` is set,
otherwise returns the empty list without touching the engine. -/
def template_send_order (trading : Bool) (pricetick : ℚ) (st : BtEngineState)
    (direction : Direction) (offset : Offset) (price volume : ℚ)
    (stop : Bool) : BtEngineState × List VtOrderId :=
  if trading then
    engine_send_order pricetick st direction offset price volume stop
  else (st, [])

/-- `CtaTemplate.buy` = (Long, Open). -/
def buy (trading : Bool) (pricetick : ℚ) (st : BtEngineState)
    (price volume : ℚ) (stop : Bool) : BtEngineState × List VtOrderId :=
  template_send_order trading pricetick st Direction.long Offset.open_
    price volume stop

/-- `CtaTemplate.sell` = (Short, Close). -/
def sell (trading : Bool) (pricetick : ℚ) (st : BtEngineState)
    (price volume : ℚ) (stop : Bool) : BtEngineState × List VtOrderId :=
  template_send_order trading pricetick st Direction.short Offset.close
    price volume stop

/-- `CtaTemplate.short` = (Short, Open). -/
def short (trading : Bool) (pricetick : ℚ) (st : BtEngineState)
    (price volume : ℚ) (stop : Bool) : BtEngineState × List VtOrderId :=
  template_send_order trading pricetick st Direction.short Offset.open_
    price volume stop

/-- `CtaTemplate.cover` = (Long, Close). -/
def cover (trading : Bool) (pricetick : ℚ) (st : BtEngineState)
    (price volume : ℚ) (stop : Bool) : BtEngineState × List VtOrderId :=
  template_send_order trading pricetick st Direction.long Offset.close
    price volume stop

/-! ### Cancellation (`cancel_limit_order` / `cancel_stop_order`) -/

/-- `BacktestingEngine.cancel_limit_order`: a no-op on an inactive id;
otherwise the order leaves the active book and its status becomes Cancelled
(from whatever status it currently has), pushed once via `on_order`.  The
status mutations performed are returned alongside the new state. -/
def cancel_limit_order (st : BtEngineState) (orderid : ℕ) :
    BtEngineState × List (Status × Status) :=
  match st.activeLimitOrders.find? (fun o => o.orderid = orderid) with
  | Option.none => (st, [])
  | some o =>
      let o1 := { o with status := Status.cancelled }
      ({ st with
          activeLimitOrders :=
            st.activeLimitOrders.eraseP (fun q => q.orderid = orderid)
          limitOrders := st.limitOrders.map fun q =>
            if q.orderid = orderid then o1 else q },
        [(o.status, Status.cancelled)])

/-- `BacktestingEngine.cancel_stop_order`: a no-op on an inactive id;
otherwise the stop leaves the active stop book and is marked Cancelled. -/
def cancel_stop_order (st : BtEngineState) (stopOrderid : ℕ) :
    BtEngineState × List (StopOrderStatus × StopOrderStatus) :=
  match st.activeStopOrders.find? (fun s => s.stopOrderid = stopOrderid) with
  | Option.none => (st, [])
  | some s =>
      let s1 := { s with status := StopOrderStatus.cancelled }
      ({ st with
          activeStopOrders :=
            st.activeStopOrders.eraseP (fun q => q.stopOrderid = stopOrderid)
          stopOrders := st.stopOrders.map fun q =>
            if q.stopOrderid = stopOrderid then s1 else q },
        [(s.status, StopOrderStatus.cancelled)])

/-! ### Warm-up phase (`BacktestingEngine.run_backtesting`, lines 282-317) -/

/-- The warm-up loop of `run_backtesting`.  The loop state is
`(day_count, self.datetime)`; the boundary test of the source is
`data.datetime.day != self.datetime.day` — the *day of month*, not the full
date.  Returns the index at which `break` fired, or `none` when the history
was exhausted without a break. -/
def warmupBreakIx (days : ℕ) (dayCount : ℕ) (cur : Option BTDateTime)
    (i : ℕ) : List BTDateTime → Option ℕ
  | [] => Option.none
  | dt :: rest =>
    match cur with
    | some c =>
        if dt.day ≠ c.day then
          if days ≤ dayCount + 1 then some i
          else warmupBreakIx days (dayCount + 1) (some dt) (i + 1) rest
        else warmupBreakIx days dayCount (some dt) (i + 1) rest
    | Option.none => warmupBreakIx days dayCount (some dt) (i + 1) rest

/-- The data points that receive the recorded warm-up callback
(`self.callback(data)`): every point before the break index, or the whole
history when no break fires. -/
def warmupData (days : ℕ) (hist : List BTDateTime) : List BTDateTime :=
  match warmupBreakIx days 0 Option.none 0 hist with
  | some i => hist.take i
  | Option.none => hist

/-- The data points replayed by the run phase, `self.history_data[ix:]`.
When the warm-up loop was exhausted without a break, Python leaves the loop
variable `ix` at the last index, so the final data point is replayed again. -/
def runPhaseData (days : ℕ) (hist : List BTDateTime) : List BTDateTime :=
  match warmupBreakIx days 0 Option.none 0 hist with
  | some i => hist.drop i
  | Option.none => hist.drop (hist.length - 1)

/-- The observable events of `run_backtesting`. -/
inductive ReplayEvent where
  | onInit
  | warmupCallback (dt : BTDateTime)
  | onStart
  | runDatum (dt : BTDateTime)
deriving DecidableEq, Repr

/-- `run_backtesting` as an event trace: `on_init`, then the warm-up
callbacks (with `inited = false`, `trading = false`, and no order matching),
then `on_start` with `trading` switched on, then the run phase in which each
data point goes through `new_bar`/`new_tick` — the only place the two
crossing scans are invoked. -/
def run_backtesting (days : ℕ) (hist : List BTDateTime) : List ReplayEvent :=
  [ReplayEvent.onInit]
    ++ (warmupData days hist).map ReplayEvent.warmupCallback
    ++ [ReplayEvent.onStart]
    ++ (runPhaseData days hist).map ReplayEvent.runDatum

/-- The warm-up loop as claim C5 words it, identical to `warmupBreakIx`
except that the day boundary is a change of the full calendar date
`data.datetime.date()` instead of the source's day-of-month field. -/
def specWarmupBreakIx (days : ℕ) (dayCount : ℕ) (cur : Option BTDateTime)
    (i : ℕ) : List BTDateTime → Option ℕ
  | [] => Option.none
  | dt :: rest =>
    match cur with
    | some c =>
        if dt.date ≠ c.date then
          if days ≤ dayCount + 1 then some i
          else specWarmupBreakIx days (dayCount + 1) (some dt) (i + 1) rest
        else specWarmupBreakIx days dayCount (some dt) (i + 1) rest
    | Option.none => specWarmupBreakIx days dayCount (some dt) (i + 1) rest

/-- The warm-up data set under the claim's `date()`-based reading. -/
def specWarmupData (days : ℕ) (hist : List BTDateTime) : List BTDateTime :=
  match specWarmupBreakIx days 0 Option.none 0 hist with
  | some i => hist.take i
  | Option.none => hist

/-! ### Daily mark-to-market accounting (`DailyResult.calculate_pnl`) -/

/-- The fields `DailyResult.calculate_pnl` fills in. -/
structure DailyResultOut where
  closePrice : ℚ
  preClose : ℚ
  tradeCount : ℕ
  startPos : ℚ
  endPos : ℚ
  turnover : ℚ
  commission : ℚ
  slippage : ℚ
  tradingPnl : ℚ
  holdingPnl : ℚ
  totalPnl : ℚ
  netPnl : ℚ
deriving DecidableEq, Repr

/-- The running accumulators of the trade loop in `calculate_pnl`. -/
structure PnlAccum where
  endPos : ℚ
  tradingPnl : ℚ
  turnover : ℚ
  commission : ℚ
  slippage : ℚ
deriving DecidableEq, Repr

/-- One iteration of the trade loop of `calculate_pnl`: position change,
then the normal/inverse turnover, trading pnl, fixed commission and slippage
updates, then the turnover accumulation and the float commission taken on
this trade's turnover. -/
def calculate_pnl_step (closePrice size rate slippageSetting : ℚ)
    (rateType : RateType) (inverse : Bool) (acc : PnlAccum)
    (trade : TradeData) : PnlAccum :=
  let posChange : ℚ :=
    if trade.direction = Direction.long then trade.volume else -trade.volume
  let turnover1 : ℚ :=
    if ¬inverse then trade.volume * size * trade.price
    else trade.volume * size / trade.price
  let tradingPnl :=
    acc.tradingPnl +
      (if ¬inverse then posChange * (closePrice - trade.price) * size
       else posChange * (1 / trade.price - 1 / closePrice) * size)
  let commission1 :=
    acc.commission + (if rateType = RateType.fixed then trade.volume * rate else 0)
  let slippage1 :=
    acc.slippage +
      (if ¬inverse then trade.volume * size * slippageSetting
       else trade.volume * size * slippageSetting / trade.price ^ 2)
  let commission2 :=
    commission1 + (if rateType = RateType.float then turnover1 * rate else 0)
  ⟨acc.endPos + posChange, tradingPnl, acc.turnover + turnover1,
    commission2, slippage1⟩

/-- `DailyResult.calculate_pnl`.  A falsy (`== 0`) `pre_close` is replaced by
1 before any formula is applied; the accumulators start from the zero values
`DailyResult.__init__` gave them, `calculate_pnl` being called once per
daily result during post-run aggregation. -/
def calculate_pnl (closePrice : ℚ) (trades : List TradeData)
    (preClose startPos size : ℚ) (rateType : RateType)
    (rate slippageSetting : ℚ) (inverse : Bool) : DailyResultOut :=
  let pre := if preClose ≠ 0 then preClose else 1
  let holdingPnl :=
    if ¬inverse then startPos * (closePrice - pre) * size
    else startPos * (1 / pre - 1 / closePrice) * size
  let a := trades.foldl
    (calculate_pnl_step closePrice size rate slippageSetting rateType inverse)
    ⟨startPos, 0, 0, 0, 0⟩
  { closePrice := closePrice
    preClose := pre
    tradeCount := trades.length
    startPos := startPos
    endPos := a.endPos
    turnover := a.turnover
    commission := a.commission
    slippage := a.slippage
    tradingPnl := a.tradingPnl
    holdingPnl := holdingPnl
    totalPnl := a.tradingPnl + holdingPnl
    netPnl := a.tradingPnl + holdingPnl - a.commission - a.slippage }

/-- The signed position change a trade contributes (`pos_change`). -/
def tradePosChange (trade : TradeData) : ℚ :=
  if trade.direction = Direction.long then trade.volume else -trade.volume

/-! ### Round-trip ledger (`BacktestingEngine.calculate_trade_result`) -/

/-- The per-trade (profit, commission, slippage) triple of the first pass of
`calculate_trade_result` (the cash-flow view: Long rows pay out, Short rows
receive). -/
def perTradeTriple (size rate slippageSetting : ℚ) (rateType : RateType)
    (row : TradeData) : ℚ × ℚ × ℚ :=
  (size * row.price * row.volume *
      (if row.direction = Direction.long then -1 else 1),
    if rateType = RateType.fixed then row.volume * rate
    else size * row.price * row.volume * rate,
    size * slippageSetting)

/-- The rewritten (profit, commission, slippage) triple applied to the tail
suffix, marking the dangling position to the final close price. -/
def modifiedTriple (size rate slippageSetting lastClose : ℚ)
    (rateType : RateType) (row : TradeData) : ℚ × ℚ × ℚ :=
  (if row.direction = Direction.long then
      size * (lastClose - row.price) * row.volume
    else size * (row.price - lastClose) * row.volume,
    if rateType = RateType.fixed then 2 * row.volume * rate
    else size * (lastClose + row.price) * row.volume * rate,
    2 * size * slippageSetting)

/-- The Python scan `for count, offset in enumerate(reversed): if offset ==
"平": break`: the index of the first Close, or — when no break fires —
the last value the loop variable took, `length − 1`. -/
def enumBreakClose (i : ℕ) : List TradeData → ℕ
  | [] => i - 1
  | row :: rest =>
      if row.offset = Offset.close then i else enumBreakClose (i + 1) rest

/-- The `count` of `calculate_trade_result`: the scan runs only when the last
row's offset is Open (`offset_list_reverse[0] == "开"`), otherwise 0. -/
def tailRewriteCount (rows : List TradeData) : ℕ :=
  match rows.reverse with
  | [] => 0
  | r :: _ =>
      if r.offset = Offset.open_ then enumBreakClose 0 rows.reverse else 0

/-- The per-trade (profit, commission, slippage) columns produced by
`calculate_trade_result`: the first pass, then — when `count` is nonzero —
the last `count` rows replaced by the marked-to-close triples
(`list[-count:] = modified`). -/
def calculate_trade_result (size rate slippageSetting : ℚ)
    (rateType : RateType) (lastClose : ℚ) (rows : List TradeData) :
    List (ℚ × ℚ × ℚ) :=
  let base := rows.map (perTradeTriple size rate slippageSetting rateType)
  let count := tailRewriteCount rows
  if count = 0 then base
  else
    base.take (rows.length - count) ++
      (rows.drop (rows.length - count)).map
        (modifiedTriple size rate slippageSetting lastClose rateType)

/-- The `volume_count` of `calculate_trade_result` over the whole row list:
Open adds the row's volume, anything else subtracts it. -/
def netVolume (rows : List TradeData) : ℚ :=
  rows.foldl
    (fun v row =>
      if row.offset = Offset.open_ then v + row.volume else v - row.volume)
    0

/-- The tail rewrite as claim C6 states it: applied exactly when the net
signed volume over the rows is nonzero, and then to precisely the suffix of
rows strictly after the last Close row (the whole list when no Close
exists). -/
def specC6Result (size rate slippageSetting : ℚ) (rateType : RateType)
    (lastClose : ℚ) (rows : List TradeData) : List (ℚ × ℚ × ℚ) :=
  let base := rows.map (perTradeTriple size rate slippageSetting rateType)
  if netVolume rows ≠ 0 then
    let k :=
      match rows.reverse.findIdx? (fun r => r.offset = Offset.close) with
      | some j => j
      | Option.none => rows.length
    base.take (rows.length - k) ++
      (rows.drop (rows.length - k)).map
        (modifiedTriple size rate slippageSetting lastClose rateType)
  else base

/-! ### Grid search result ordering (`BacktestingEngine.run_optimization`) -/

/-- The final `result_values.sort(reverse=True, key=lambda r: r[1])` of
`run_optimization` on the collected `(setting_repr, target_value,
statistics_map)` triples: a stable descending sort on the target value
(Python's `list.sort` is stable, also with `reverse=True`; `mergeSort` is the
stable sort of the Lean library). -/
def sortResultValues {α β : Type} (l : List (α × ℚ × β)) : List (α × ℚ × β) :=
  l.mergeSort (fun a b => decide (b.2.1 ≤ a.2.1))

/-! ### `calculate_statistics` with no daily frame (df is None) -/

/-- A Python value as far as the statistics dictionary is concerned. -/
inductive PyVal where
  | str (s : String)
  | num (q : ℚ)
deriving DecidableEq, Repr

/-- What one entry of the `statistics` dict literal reads: a local variable
of `calculate_statistics`, or the attribute `self.capital`. -/
inductive StatRef where
  | localVar (name : String)
  | selfCapital
deriving DecidableEq, Repr

/-- The local variables assigned by the `df is None` branch of
`calculate_statistics` (source lines 372-412), with their values. -/
def noneBranchLocals : List (String × PyVal) :=
  [("start_date", PyVal.str ""), ("end_date", PyVal.str ""),
   ("total_days", PyVal.num 0), ("profit_days", PyVal.num 0),
   ("loss_days", PyVal.num 0), ("end_balance", PyVal.num 0),
   ("max_drawdown", PyVal.num 0), ("max_ddpercent", PyVal.num 0),
   ("max_drawdown_duration", PyVal.num 0), ("total_net_pnl", PyVal.num 0),
   ("daily_net_pnl", PyVal.num 0), ("total_commission", PyVal.num 0),
   ("daily_commission", PyVal.num 0), ("total_slippage", PyVal.num 0),
   ("daily_slippage", PyVal.num 0), ("total_turnover", PyVal.num 0),
   ("daily_turnover", PyVal.num 0), ("total_trade_count", PyVal.num 0),
   ("daily_trade_count", PyVal.num 0), ("total_return", PyVal.num 0),
   ("annual_return", PyVal.num 0), ("daily_return", PyVal.num 0),
   ("return_std", PyVal.num 0), ("sharpe_ratio", PyVal.num 0),
   ("return_drawdown_ratio", PyVal.num 0), ("total_trade", PyVal.num 0),
   ("max_profit", PyVal.num 0), ("max_loss", PyVal.num 0),
   ("profit_times", PyVal.num 0), ("loss_times", PyVal.num 0),
   ("rate_of_win", PyVal.num 0), ("total_profit", PyVal.num 0),
   ("total_loss", PyVal.num 0), ("profit_loss_ratio", PyVal.num 0),
   ("trade_profit", PyVal.num 0), ("trade_commission", PyVal.num 0),
   ("trade_slippage", PyVal.num 0), ("final_profit", PyVal.num 0)]

/-- The `statistics` dict literal (source lines 539-580): each key with the
name it evaluates, in source order.  Every value is a bare local except
`capital`, which reads `self.capital`. -/
def statisticsEntries : List (String × StatRef) :=
  [("start_date", StatRef.localVar "start_date"),
   ("end_date", StatRef.localVar "end_date"),
   ("total_days", StatRef.localVar "total_days"),
   ("profit_days", StatRef.localVar "profit_days"),
   ("loss_days", StatRef.localVar "loss_days"),
   ("capital", StatRef.selfCapital),
   ("end_balance", StatRef.localVar "end_balance"),
   ("max_drawdown", StatRef.localVar "max_drawdown"),
   ("max_ddpercent", StatRef.localVar "max_ddpercent"),
   ("max_drawdown_duration", StatRef.localVar "max_drawdown_duration"),
   ("total_net_pnl", StatRef.localVar "total_net_pnl"),
   ("daily_net_pnl", StatRef.localVar "daily_net_pnl"),
   ("total_commission", StatRef.localVar "total_commission"),
   ("daily_commission", StatRef.localVar "daily_commission"),
   ("total_slippage", StatRef.localVar "total_slippage"),
   ("daily_slippage", StatRef.localVar "daily_slippage"),
   ("total_turnover", StatRef.localVar "total_turnover"),
   ("daily_turnover", StatRef.localVar "daily_turnover"),
   ("total_trade_count", StatRef.localVar "total_trade_count"),
   ("daily_trade_count", StatRef.localVar "daily_trade_count"),
   ("total_return", StatRef.localVar "total_return"),
   ("annual_return", StatRef.localVar "annual_return"),
   ("daily_return", StatRef.localVar "daily_return"),
   ("return_std", StatRef.localVar "return_std"),
   ("sharpe_ratio", StatRef.localVar "sharpe_ratio"),
   ("return_drawdown_ratio", StatRef.localVar "return_drawdown_ratio"),
   ("total_trade", StatRef.localVar "total_trade"),
   ("max_profit", StatRef.localVar "max_profit"),
   ("max_loss", StatRef.localVar "max_loss"),
   ("profit_times", StatRef.localVar "profit_times"),
   ("loss_times", StatRef.localVar "loss_times"),
   ("rate_of_win", StatRef.localVar "rate_of_win"),
   ("total_profit", StatRef.localVar "total_profit"),
   ("total_loss", StatRef.localVar "total_loss"),
   ("profit_loss_ratio", StatRef.localVar "profit_loss_ratio"),
   ("trade_profit", StatRef.localVar "trade_profit"),
   ("trade_commission", StatRef.localVar "trade_commission"),
   ("trade_slippage", StatRef.localVar "trade_slippage"),
   ("final_profit", StatRef.localVar "final_profit"),
   ("final_balance", StatRef.localVar "final_balance")]

/-- CPython name lookup for a local: the first binding with that name. -/
def lookupLocal (env : List (String × PyVal)) (n : String) : Option PyVal :=
  (env.find? fun p => p.1 = n).map (fun p => p.2)

/-- Evaluates the dict literal left to right; the first reference to an
unassigned local raises `NameError(name)`, modelled as `Except.error name`. -/
def buildStatisticsDict (capital : ℚ) (env : List (String × PyVal)) :
    List (String × StatRef) → Except String (List (String × PyVal))
  | [] => Except.ok []
  | (key, StatRef.selfCapital) :: rest =>
      (buildStatisticsDict capital env rest).map
        (fun tail => (key, PyVal.num capital) :: tail)
  | (key, StatRef.localVar n) :: rest =>
      match lookupLocal env n with
      | Option.none => Except.error n
      | some v =>
          (buildStatisticsDict capital env rest).map
            (fun tail => (key, v) :: tail)

/-- `calculate_statistics(df=None, output=False)` after its `df is None`
branch: building the statistics dict from the locals that branch assigned. -/
def calculate_statistics_none (capital : ℚ) :
    Except String (List (String × PyVal)) :=
  buildStatisticsDict capital noneBranchLocals statisticsEntries

/-! ## Theorems -/

/-- The fill decision of the limit scan, as a closed form over the original
order (the Submitting → NotTraded promotion touches neither the direction nor
the price the cross conditions read). -/
lemma crossLimitOne_fill_eq (p : LimitCrossPrices) (o : OrderData) :
    (crossLimitOne p o).2.1 =
      if longLimitCross p o then some ⟨min o.price p.longBestPrice, o.volume⟩
      else if shortLimitCross p o then
        some ⟨max o.price p.shortBestPrice, -o.volume⟩
      else Option.none := by
  obtain ⟨oid, dir, off, price, vol, traded, stat⟩ := o
  by_cases hs : stat = Status.submitting <;>
    simp only [crossLimitOne, longLimitCross, shortLimitCross, hs, if_true,
      if_false, eq_self_iff_true, reduceIte] <;>
    split_ifs <;> rfl

/-- C1: scanning an active limit order, a Long order fills exactly when its
price is at least the long-cross reference and that reference is strictly
positive, symmetrically for Short; the fill price is
`min(order.price, long_best)` for Long and `max(order.price, short_best)` for
Short, hence every Long fill is at most and every Short fill at least the
order price; the references are bar.low/bar.high with best bar.open in Bar
mode and ask₁/bid₁ in Tick mode. -/
theorem c1_limit_cross_fill_spec (p : LimitCrossPrices) (o : OrderData) :
    ((crossLimitOne p o).2.1.isSome ↔
        (longLimitCross p o ∨ shortLimitCross p o)) ∧
    (longLimitCross p o ↔ o.direction = Direction.long ∧
        o.price ≥ p.longCrossPrice ∧ p.longCrossPrice > 0) ∧
    (shortLimitCross p o ↔ o.direction = Direction.short ∧
        o.price ≤ p.shortCrossPrice ∧ p.shortCrossPrice > 0) ∧
    (longLimitCross p o →
        (crossLimitOne p o).2.1 = some ⟨min o.price p.longBestPrice, o.volume⟩) ∧
    (shortLimitCross p o →
        (crossLimitOne p o).2.1 = some ⟨max o.price p.shortBestPrice, -o.volume⟩) ∧
    (∀ f, (crossLimitOne p o).2.1 = some f →
        (o.direction = Direction.long → f.tradePrice ≤ o.price) ∧
        (o.direction = Direction.short → o.price ≤ f.tradePrice)) ∧
    (∀ bar, limitCrossPricesBar bar =
        ⟨bar.lowPrice, bar.highPrice, bar.openPrice, bar.openPrice⟩) ∧
    (∀ tick, limitCrossPricesTick tick =
        ⟨tick.askPrice1, tick.bidPrice1, tick.askPrice1, tick.bidPrice1⟩) := by
  have hfill := crossLimitOne_fill_eq p o
  refine ⟨?_, Iff.rfl, Iff.rfl, ?_, ?_, ?_, fun _ => rfl, fun _ => rfl⟩
  · rw [hfill]
    by_cases h1 : longLimitCross p o
    · simp [h1]
    · by_cases h2 : shortLimitCross p o <;> simp [h1, h2]
  · intro h1
    rw [hfill, if_pos h1]
  · intro h2
    have h1 : ¬ longLimitCross p o := by
      intro h1
      have := h1.1
      have := h2.1
      simp_all
    rw [hfill, if_neg h1, if_pos h2]
  · intro f hf
    rw [hfill] at hf
    by_cases h1 : longLimitCross p o
    · rw [if_pos h1] at hf
      cases hf
      constructor
      · intro _
        exact min_le_left _ _
      · intro hdir
        rw [h1.1] at hdir
        cases hdir
    · by_cases h2 : shortLimitCross p o
      · rw [if_neg h1, if_pos h2] at hf
        cases hf
        constructor
        · intro hdir
          rw [h2.1] at hdir
          cases hdir
        · intro _
          exact le_max_left _ _
      · rw [if_neg h1, if_neg h2] at hf
        cases hf

/-- A stop order triggers independently of the id counters threaded through
the scan: `crossStopOne` returns `none` exactly when neither cross condition
holds. -/
lemma crossStopOne_eq_none (p : StopCrossPrices) (c t : ℕ) (s : StopOrder) :
    crossStopOne p c t s = Option.none ↔
      ¬(longStopCross p s ∨ shortStopCross p s) := by
  unfold crossStopOne
  split_ifs with h <;> simp [h]

/-- `crossStopOne` produces a trigger exactly when a cross condition holds. -/
lemma crossStopOne_isSome (p : StopCrossPrices) (c t : ℕ) (s : StopOrder) :
    (crossStopOne p c t s).isSome ↔
      (longStopCross p s ∨ shortStopCross p s) := by
  unfold crossStopOne
  split_ifs with h <;> simp [h]

/-- The stop scan keeps exactly the non-triggered stops in the active book,
in order, after whatever was already accumulated. -/
lemma crossStopOrderBook_active_go (p : StopCrossPrices) :
    ∀ (l : List StopOrder) (st : BtEngineState),
      (l.foldl (crossStopStep p) st).activeStopOrders
        = st.activeStopOrders ++
            l.filter (fun s => ¬(longStopCross p s ∨ shortStopCross p s)) := by
  intro l
  induction l with
  | nil => intro st; simp
  | cons s rest ih =>
      intro st
      rw [List.foldl_cons, ih]
      unfold crossStopStep
      cases h : crossStopOne p st.limitOrderCount st.tradeCount s with
      | none =>
          have hc : ¬(longStopCross p s ∨ shortStopCross p s) :=
            (crossStopOne_eq_none p st.limitOrderCount st.tradeCount s).mp h
          rw [not_or] at hc
          simp [List.filter_cons, hc.1, hc.2]
      | some trig =>
          have hc : longStopCross p s ∨ shortStopCross p s := by
            have hiff := crossStopOne_isSome p st.limitOrderCount st.tradeCount s
            rw [h] at hiff
            exact hiff.mp rfl
          rcases hc with hl | hs2
          · simp [List.filter_cons, hl]
          · simp [List.filter_cons, hs2]

/-- The active stop book after `cross_stop_order`: the non-triggered stops. -/
lemma crossStopOrderBook_active (p : StopCrossPrices) (st : BtEngineState) :
    (crossStopOrderBook p st).activeStopOrders
      = st.activeStopOrders.filter
          (fun s => ¬(longStopCross p s ∨ shortStopCross p s)) := by
  unfold crossStopOrderBook
  rw [crossStopOrderBook_active_go]
  simp

/-- C2: an active Long stop triggers exactly when `stop.price ≤ long_cross`
(bar.high / last price), a Short stop exactly when `stop.price ≥ short_cross`
(bar.low / last price); a trigger synthesizes a fresh order already in status
AllTraded, emits a trade with a fresh trade id at `max(stop.price, long_best)`
for Long and `min(stop.price, short_best)` for Short, marks the stop
Triggered, and the stop leaves the active stop book. -/
theorem c2_stop_cross_trigger_spec (p : StopCrossPrices) (c t : ℕ)
    (s : StopOrder) :
    ((crossStopOne p c t s).isSome ↔
        (longStopCross p s ∨ shortStopCross p s)) ∧
    (longStopCross p s ↔
        s.direction = Direction.long ∧ s.price ≤ p.longCrossPrice) ∧
    (shortStopCross p s ↔
        s.direction = Direction.short ∧ s.price ≥ p.shortCrossPrice) ∧
    (∀ trig, crossStopOne p c t s = some trig →
        trig.order.status = Status.allTraded ∧
        trig.order.orderid = c + 1 ∧
        trig.trade.tradeid = t + 1 ∧
        trig.trade.orderid = c + 1 ∧
        trig.stopAfter.status = StopOrderStatus.triggered ∧
        trig.stopAfter.vtOrderids = s.vtOrderids ++ [c + 1] ∧
        (s.direction = Direction.long →
            trig.trade.price = max s.price p.longBestPrice) ∧
        (s.direction = Direction.short →
            trig.trade.price = min s.price p.shortBestPrice)) ∧
    (∀ st, (longStopCross p s ∨ shortStopCross p s) →
        s ∉ (crossStopOrderBook p st).activeStopOrders) ∧
    (∀ bar, stopCrossPricesBar bar =
        ⟨bar.highPrice, bar.lowPrice, bar.openPrice, bar.openPrice⟩) ∧
    (∀ tick, stopCrossPricesTick tick =
        ⟨tick.lastPrice, tick.lastPrice, tick.lastPrice, tick.lastPrice⟩) := by
  refine ⟨crossStopOne_isSome p c t s, Iff.rfl, Iff.rfl, ?_, ?_,
    fun _ => rfl, fun _ => rfl⟩
  · intro trig htrig
    by_cases hl : longStopCross p s
    · have hcond : longStopCross p s ∨ shortStopCross p s := Or.inl hl
      simp only [crossStopOne, if_pos hcond, if_pos hl] at htrig
      injection htrig with h2
      subst h2
      refine ⟨rfl, rfl, rfl, rfl, rfl, rfl, fun _ => rfl, fun hdir => ?_⟩
      exact absurd hl.1 (by simp [hdir])
    · by_cases hs2 : shortStopCross p s
      · have hcond : longStopCross p s ∨ shortStopCross p s := Or.inr hs2
        simp only [crossStopOne, if_pos hcond, if_neg hl] at htrig
        injection htrig with h2
        subst h2
        refine ⟨rfl, rfl, rfl, rfl, rfl, rfl, fun hdir => ?_, fun _ => rfl⟩
        exact absurd hs2.1 (by simp [hdir])
      · have hcond : ¬(longStopCross p s ∨ shortStopCross p s) := by
          intro hc
          rcases hc with hc | hc
          · exact hl hc
          · exact hs2 hc
        simp only [crossStopOne, if_neg hcond] at htrig
        cases htrig
  · intro st hcross hmem
    rw [crossStopOrderBook_active] at hmem
    have hpred := List.of_mem_filter hmem
    simp at hpred
    rcases hcross with hc | hc
    · exact hpred.1 hc
    · exact hpred.2 hc

/-- A fresh engine with empty books, used as concrete input. -/
def emptyEngineState : BtEngineState :=
  ⟨[], [], [], [], 0, 0, 0, [], 0⟩

/-- A concrete one-minute bar used as concrete input. -/
def sampleBar : BarData :=
  ⟨⟨2020, 1, 1⟩, 10, 12, 9, 11⟩

/-- C3 counterexample: with a strategy declaring `x_second = 61`, `new_bar`
runs limit crossing, stop crossing and the daily-close update but invokes
*no* strategy callback at all — the data point's trace has no third callback
step, against the claimed fixed four-step order. -/
theorem c3_counterexample :
    (new_bar (some 61) sampleBar emptyEngineState).2.1 =
        [BarStep.crossLimit, BarStep.crossStop, BarStep.updateDailyClose] ∧
    ¬ ∃ cb, (new_bar (some 61) sampleBar emptyEngineState).2.1 =
        [BarStep.crossLimit, BarStep.crossStop, cb, BarStep.updateDailyClose] := by
  constructor
  · rfl
  · rintro ⟨cb, h⟩
    have hlen := congrArg List.length h
    simp [new_bar, barCallbackSteps] at hlen

/-- C3 (amended): on each data point the engine runs limit crossing, then
stop crossing, then the strategy callback — `on_second_bar` when
`x_second < 60`, `on_bar` when `x_second = 60` or the attribute is missing,
and *no* callback when `x_second > 60` — then the daily-close update; the
stop scan consumes the state the limit scan produced, and whenever a callback
runs it observes the position resulting from both crossings.  `new_tick`
always invokes `on_tick` in the third slot. -/
theorem c3_pipeline_order_amended (xSecond : Option ℕ) (bar : BarData)
    (tick : TickData) (st : BtEngineState) :
    ((new_bar xSecond bar st).2.1
        = [BarStep.crossLimit, BarStep.crossStop] ++ barCallbackSteps xSecond
            ++ [BarStep.updateDailyClose]) ∧
    (∀ n, xSecond = some n → n < 60 →
        barCallbackSteps xSecond = [BarStep.onSecondBar]) ∧
    (xSecond = some 60 ∨ xSecond = Option.none →
        barCallbackSteps xSecond = [BarStep.onBar]) ∧
    (∀ n, xSecond = some n → 60 < n → barCallbackSteps xSecond = []) ∧
    ((new_bar xSecond bar st).1 =
        crossStopOrderBook (stopCrossPricesBar bar)
          (crossLimitOrderBook (limitCrossPricesBar bar) st)) ∧
    (∀ q, (new_bar xSecond bar st).2.2 = some q →
        q = (crossStopOrderBook (stopCrossPricesBar bar)
              (crossLimitOrderBook (limitCrossPricesBar bar) st)).pos) ∧
    ((new_tick tick st).2.1
        = [BarStep.crossLimit, BarStep.crossStop, BarStep.onTick,
            BarStep.updateDailyClose]) ∧
    ((new_tick tick st).1 =
        crossStopOrderBook (stopCrossPricesTick tick)
          (crossLimitOrderBook (limitCrossPricesTick tick) st)) ∧
    ((new_tick tick st).2.2 = some (new_tick tick st).1.pos) := by
  refine ⟨rfl, ?_, ?_, ?_, rfl, ?_, rfl, rfl, rfl⟩
  · intro n hn hlt
    subst hn
    simp [barCallbackSteps, hlt]
  · rintro (h | h) <;> subst h <;> simp [barCallbackSteps]
  · intro n hn hgt
    subst hn
    have h1 : ¬ n < 60 := by omega
    have h2 : ¬ n = 60 := by omega
    simp [barCallbackSteps, h1, h2]
  · intro q hq
    unfold new_bar at hq
    by_cases hcb : (barCallbackSteps xSecond).isEmpty <;> simp [hcb] at hq
    exact hq.symm

/-- `foldl` of the daily pnl step accumulates the signed position changes. -/
lemma calculate_pnl_fold_endPos (cp size rate sl : ℚ) (rt : RateType)
    (inv : Bool) :
    ∀ (trades : List TradeData) (a : PnlAccum),
      (trades.foldl (calculate_pnl_step cp size rate sl rt inv) a).endPos
        = a.endPos + (trades.map tradePosChange).sum := by
  intro trades
  induction trades with
  | nil => intro a; simp
  | cons t ts ih =>
      intro a
      rw [List.foldl_cons, ih]
      simp [calculate_pnl_step, tradePosChange]
      ring

/-- `foldl` of the daily pnl step accumulates the per-trade trading pnl. -/
lemma calculate_pnl_fold_tradingPnl (cp size rate sl : ℚ) (rt : RateType)
    (inv : Bool) :
    ∀ (trades : List TradeData) (a : PnlAccum),
      (trades.foldl (calculate_pnl_step cp size rate sl rt inv) a).tradingPnl
        = a.tradingPnl + (trades.map (fun t =>
            if ¬inv then tradePosChange t * (cp - t.price) * size
            else tradePosChange t * (1 / t.price - 1 / cp) * size)).sum := by
  intro trades
  induction trades with
  | nil => intro a; simp
  | cons t ts ih =>
      intro a
      rw [List.foldl_cons, ih]
      simp only [List.map_cons, List.sum_cons, calculate_pnl_step,
        tradePosChange]
      ring

/-- C4: `calculate_pnl` substitutes 1 for a zero `pre_close`, computes the
holding pnl as `start_pos × (close − pre_close) × size` (normal) or
`start_pos × (1/pre_close − 1/close) × size` (inverse), and accumulates over
the day's trades the position change `±volume` into `end_pos` and the
per-trade `pos_change × (close − price) × size` (normal) or
`pos_change × (1/price − 1/close) × size` (inverse) into `trading_pnl`. -/
theorem c4_calculate_pnl_spec (cp preClose startPos size rate sl : ℚ)
    (rt : RateType) (inv : Bool) (trades : List TradeData) :
    ((calculate_pnl cp trades preClose startPos size rt rate sl inv).preClose
        = (if preClose = 0 then 1 else preClose)) ∧
    ((calculate_pnl cp trades preClose startPos size rt rate sl inv).holdingPnl
        = (if inv then
            startPos * (1 / (if preClose = 0 then 1 else preClose) - 1 / cp)
              * size
          else
            startPos * (cp - (if preClose = 0 then 1 else preClose)) * size)) ∧
    (∀ t : TradeData, tradePosChange t =
        (if t.direction = Direction.long then t.volume else -t.volume)) ∧
    ((calculate_pnl cp trades preClose startPos size rt rate sl inv).endPos
        = startPos + (trades.map tradePosChange).sum) ∧
    ((calculate_pnl cp trades preClose startPos size rt rate sl inv).tradingPnl
        = (trades.map (fun t =>
            if inv then tradePosChange t * (1 / t.price - 1 / cp) * size
            else tradePosChange t * (cp - t.price) * size)).sum) := by
  have hpre : (if preClose ≠ 0 then preClose else 1)
      = (if preClose = 0 then 1 else preClose) := by
    by_cases h : preClose = 0 <;> simp [h]
  refine ⟨?_, ?_, fun _ => rfl, ?_, ?_⟩
  · simp only [calculate_pnl, hpre]
  · simp only [calculate_pnl, hpre]
    cases inv <;> simp
  · simp only [calculate_pnl, calculate_pnl_fold_endPos]
  · simp only [calculate_pnl, calculate_pnl_fold_tradingPnl]
    cases inv <;> simp

/-- Day-of-month boundaries in a data sequence, continuing from a previous
datetime `c`: the number of adjacent pairs whose `.day` fields differ. -/
def dayBoundaryCountFrom (c : BTDateTime) : List BTDateTime → ℕ
  | [] => 0
  | d :: rest => (if d.day ≠ c.day then 1 else 0) + dayBoundaryCountFrom d rest

/-- Day-of-month boundaries between consecutive data points of a sequence. -/
def dayBoundaryCount : List BTDateTime → ℕ
  | [] => 0
  | d :: rest => dayBoundaryCountFrom d rest

/-- The warm-up loop breaks at the first index at which the running count of
day-of-month boundaries reaches `days`, and runs off the end exactly when the
whole tail holds fewer boundaries than it still needs. -/
lemma warmupBreakIx_go_spec (days : ℕ) :
    ∀ (l : List BTDateTime) (dc i : ℕ) (c : BTDateTime), dc < days →
      (∀ j, warmupBreakIx days dc (some c) i l = some j →
          ∃ k, k < l.length ∧ j = i + k ∧
            days ≤ dc + dayBoundaryCountFrom c (l.take (k + 1)) ∧
            dc + dayBoundaryCountFrom c (l.take k) < days) ∧
      (warmupBreakIx days dc (some c) i l = Option.none →
          dc + dayBoundaryCountFrom c l < days) := by
  intro l
  induction l with
  | nil =>
      intro dc i c hdc
      refine ⟨?_, ?_⟩
      · intro j h
        cases h
      · intro _
        simpa [dayBoundaryCountFrom] using hdc
  | cons d rest ih =>
      intro dc i c hdc
      by_cases hb : d.day ≠ c.day
      · by_cases hbreak : days ≤ dc + 1
        · refine ⟨?_, ?_⟩
          · intro j h
            simp only [warmupBreakIx, if_pos hb, if_pos hbreak] at h
            injection h with hji
            refine ⟨0, by simp, by omega, ?_, ?_⟩
            · simp only [Nat.zero_add, List.take_succ_cons, List.take_zero,
                dayBoundaryCountFrom, if_pos hb]
              omega
            · simp only [List.take_zero, dayBoundaryCountFrom]
              omega
          · intro h
            simp only [warmupBreakIx, if_pos hb, if_pos hbreak] at h
            exact Option.noConfusion h
        · have hdc1 : dc + 1 < days := by omega
          have IH := ih (dc + 1) (i + 1) d hdc1
          refine ⟨?_, ?_⟩
          · intro j h
            simp only [warmupBreakIx, if_pos hb, if_neg hbreak] at h
            obtain ⟨k, hk, hj, hge, hlt⟩ := IH.1 j h
            refine ⟨k + 1, by simpa using Nat.succ_lt_succ hk, by omega, ?_, ?_⟩
            · have heq : dayBoundaryCountFrom c ((d :: rest).take (k + 1 + 1))
                  = 1 + dayBoundaryCountFrom d (rest.take (k + 1)) := by
                simp only [List.take_succ_cons, dayBoundaryCountFrom,
                  if_pos hb]
              rw [heq]
              omega
            · have heq : dayBoundaryCountFrom c ((d :: rest).take (k + 1))
                  = 1 + dayBoundaryCountFrom d (rest.take k) := by
                simp only [List.take_succ_cons, dayBoundaryCountFrom,
                  if_pos hb]
              rw [heq]
              omega
          · intro h
            simp only [warmupBreakIx, if_pos hb, if_neg hbreak] at h
            have h2 := IH.2 h
            have heq : dayBoundaryCountFrom c (d :: rest)
                = 1 + dayBoundaryCountFrom d rest := by
              simp only [dayBoundaryCountFrom, if_pos hb]
            rw [heq]
            omega
      · have IH := ih dc (i + 1) d hdc
        refine ⟨?_, ?_⟩
        · intro j h
          simp only [warmupBreakIx, if_neg hb] at h
          obtain ⟨k, hk, hj, hge, hlt⟩ := IH.1 j h
          refine ⟨k + 1, by simpa using Nat.succ_lt_succ hk, by omega, ?_, ?_⟩
          · have heq : dayBoundaryCountFrom c ((d :: rest).take (k + 1 + 1))
                = dayBoundaryCountFrom d (rest.take (k + 1)) := by
              simp only [List.take_succ_cons, dayBoundaryCountFrom,
                if_neg hb, Nat.zero_add]
            rw [heq]
            omega
          · have heq : dayBoundaryCountFrom c ((d :: rest).take (k + 1))
                = dayBoundaryCountFrom d (rest.take k) := by
              simp only [List.take_succ_cons, dayBoundaryCountFrom,
                if_neg hb, Nat.zero_add]
            rw [heq]
            omega
        · intro h
          simp only [warmupBreakIx, if_neg hb] at h
          have h2 := IH.2 h
          have heq : dayBoundaryCountFrom c (d :: rest)
              = dayBoundaryCountFrom d rest := by
            simp only [dayBoundaryCountFrom, if_neg hb, Nat.zero_add]
          rw [heq]
          omega

/-- C5 counterexample: consecutive data points on 2020-01-15 and 2020-02-15
change `date()` but keep the same day of month; with one warm-up day
configured, the source's warm-up (which compares `datetime.day`) consumes and
hands the callback *both* points, while the claim's `date()`-based reading
ends the warm-up after the first. -/
theorem c5_counterexample :
    warmupData 1 [⟨2020, 1, 15⟩, ⟨2020, 2, 15⟩]
        = [⟨2020, 1, 15⟩, ⟨2020, 2, 15⟩] ∧
    specWarmupData 1 [⟨2020, 1, 15⟩, ⟨2020, 2, 15⟩] = [⟨2020, 1, 15⟩] ∧
    (⟨2020, 1, 15⟩ : BTDateTime).date ≠ (⟨2020, 2, 15⟩ : BTDateTime).date ∧
    warmupData 1 [⟨2020, 1, 15⟩, ⟨2020, 2, 15⟩]
        ≠ specWarmupData 1 [⟨2020, 1, 15⟩, ⟨2020, 2, 15⟩] := by
  refine ⟨rfl, rfl, by decide, by decide⟩

/-- C5 (amended): a day boundary is detected exactly when `datetime.day`
(the day of month, not the full calendar date) changes between consecutive
data points; the warm-up ends at the first data point at which the number of
such boundaries reaches the configured `days` (when the history is exhausted
first, the whole history is warm-up and the run phase replays the last data
point); no order matching is performed on a warm-up data point — warm-up
points only receive the recorded callback, before `on_start` and the
`trading` switch, and the crossing scans run only on run-phase data. -/
theorem c5_warmup_amended (days : ℕ) (hist : List BTDateTime)
    (hdays : 0 < days) :
    (∀ i, warmupBreakIx days 0 Option.none 0 hist = some i →
        warmupData days hist = hist.take i ∧
        runPhaseData days hist = hist.drop i ∧
        days ≤ dayBoundaryCount (hist.take (i + 1)) ∧
        dayBoundaryCount (hist.take i) < days) ∧
    (warmupBreakIx days 0 Option.none 0 hist = Option.none →
        dayBoundaryCount hist < days ∧
        warmupData days hist = hist ∧
        runPhaseData days hist = hist.drop (hist.length - 1)) ∧
    (run_backtesting days hist =
        [ReplayEvent.onInit]
          ++ (warmupData days hist).map ReplayEvent.warmupCallback
          ++ [ReplayEvent.onStart]
          ++ (runPhaseData days hist).map ReplayEvent.runDatum) ∧
    (∀ dt, ReplayEvent.runDatum dt ∈ run_backtesting days hist →
        dt ∈ runPhaseData days hist) := by
  refine ⟨?_, ?_, rfl, ?_⟩
  · intro i hi
    refine ⟨by simp [warmupData, hi], by simp [runPhaseData, hi], ?_⟩
    cases hist with
    | nil => cases hi
    | cons d rest =>
        have hstep : warmupBreakIx days 0 (some d) 1 rest = some i := by
          simpa [warmupBreakIx] using hi
        obtain ⟨k, hk, hji, hge, hlt⟩ :=
          ((warmupBreakIx_go_spec days rest 0 1 d hdays).1 i hstep)
        have hik : i = k + 1 := by omega
        subst hik
        constructor
        · simp only [List.take_succ_cons, dayBoundaryCount]
          omega
        · simp only [List.take_succ_cons, dayBoundaryCount]
          omega
  · intro hnone
    refine ⟨?_, by simp [warmupData, hnone], by simp [runPhaseData, hnone]⟩
    cases hist with
    | nil => simpa [dayBoundaryCount] using hdays
    | cons d rest =>
        have hstep : warmupBreakIx days 0 (some d) 1 rest = Option.none := by
          simpa [warmupBreakIx] using hnone
        have h2 := (warmupBreakIx_go_spec days rest 0 1 d hdays).2 hstep
        simpa [dayBoundaryCount] using h2
  · intro dt hdt
    simp only [run_backtesting, List.mem_append, List.mem_map,
      List.mem_singleton] at hdt
    rcases hdt with ((h | ⟨x, _, hx⟩) | h) | ⟨x, hx, hxx⟩
    · cases h
    · cases hx
    · cases h
    · cases hxx
      exact hx

/-- C5 witness: one configured warm-up day over two data points a calendar
day apart ends the warm-up after the first point. -/
theorem c5_warmup_amended_witness :
    warmupData 1 [⟨2020, 1, 15⟩, ⟨2020, 1, 16⟩] = [⟨2020, 1, 15⟩] := by
  have h := c5_warmup_amended 1 [⟨2020, 1, 15⟩, ⟨2020, 1, 16⟩] (by decide)
  have h2 := (h.1 1 (by decide)).1
  simpa using h2

/-- C6 counterexample: a ledger holding one Long Open trade ends with net
volume 1 ≠ 0, so the claim requires the tail rewrite on that trade (profit
`size × (close_last − price) × volume = 10`); but the source's scan sets
`count = 0` for a single Open trade and rewrites nothing, leaving the
cash-flow profit −100. -/
theorem c6_counterexample :
    netVolume [⟨1, 1, Direction.long, Offset.open_, 100, 1⟩] ≠ 0 ∧
    calculate_trade_result 1 0 0 RateType.fixed 110
        [⟨1, 1, Direction.long, Offset.open_, 100, 1⟩] = [(-100, 0, 0)] ∧
    specC6Result 1 0 0 RateType.fixed 110
        [⟨1, 1, Direction.long, Offset.open_, 100, 1⟩] = [(10, 0, 0)] ∧
    calculate_trade_result 1 0 0 RateType.fixed 110
        [⟨1, 1, Direction.long, Offset.open_, 100, 1⟩]
      ≠ specC6Result 1 0 0 RateType.fixed 110
        [⟨1, 1, Direction.long, Offset.open_, 100, 1⟩] := by
  have h1 : calculate_trade_result 1 0 0 RateType.fixed 110
      [⟨1, 1, Direction.long, Offset.open_, 100, 1⟩] = [(-100, 0, 0)] := by
    simp [calculate_trade_result, tailRewriteCount, enumBreakClose,
      perTradeTriple]
  have h2 : specC6Result 1 0 0 RateType.fixed 110
      [⟨1, 1, Direction.long, Offset.open_, 100, 1⟩] = [(10, 0, 0)] := by
    simp [specC6Result, netVolume, modifiedTriple, perTradeTriple]
    norm_num
  refine ⟨by simp [netVolume], h1, h2, ?_⟩
  rw [h1, h2]
  intro h
  injection h with h3
  injection h3 with h4
  norm_num at h4

/-- The enumerate-with-break scan in closed form: the start index plus the
number of leading non-Close rows when a Close exists, and the start index
plus `length − 1` (the loop variable's final value) when none does. -/
lemma enumBreakClose_eq :
    ∀ (l : List TradeData) (i : ℕ), l ≠ [] →
      enumBreakClose i l =
        if l.any (fun r => decide (r.offset = Offset.close))
        then i + (l.takeWhile
            (fun r => decide (¬ r.offset = Offset.close))).length
        else i + l.length - 1 := by
  intro l
  induction l with
  | nil =>
      intro i h
      cases h rfl
  | cons r rest ih =>
      intro i _
      by_cases hc : r.offset = Offset.close
      · simp [enumBreakClose, hc]
      · cases rest with
        | nil => simp [enumBreakClose, hc]
        | cons r2 rest2 =>
            have IH := ih (i + 1) (by simp)
            have hstep : enumBreakClose i (r :: r2 :: rest2)
                = enumBreakClose (i + 1) (r2 :: rest2) := by
              conv_lhs => rw [enumBreakClose]
              rw [if_neg hc]
            rw [hstep, IH]
            by_cases hany :
                (r2 :: rest2).any (fun q => decide (q.offset = Offset.close))
            · rw [if_pos hany]
              have hr : (r :: r2 :: rest2).any
                  (fun q => decide (q.offset = Offset.close)) := by
                simp only [List.any_cons] at hany ⊢
                simp [hany]
              rw [if_pos hr]
              conv_rhs => rw [List.takeWhile_cons_of_pos (by simp [hc])]
              simp only [List.length_cons]
              omega
            · rw [if_neg hany]
              have hr : ¬ (r :: r2 :: rest2).any
                  (fun q => decide (q.offset = Offset.close)) := by
                simp only [List.any_cons] at hany ⊢
                simp only [decide_eq_true_eq, hc]
                simpa using hany
              rw [if_neg hr]
              simp only [List.length_cons]
              omega

/-- C6 (amended): the tail rewrite fires exactly when the *last* trade's
offset is Open (not when the net signed volume is nonzero): the rewritten
suffix holds the trailing rows up to but excluding the last Close — all rows
but the first when no Close exists at all, and in particular *no* row for a
single dangling Open trade; when the last trade's offset is not Open nothing
is rewritten, even with nonzero net volume. -/
theorem c6_tail_rewrite_amended (size rate sl lastClose : ℚ) (rt : RateType)
    (rows : List TradeData) :
    (∀ r, rows.getLast? = some r → r.offset ≠ Offset.open_ →
        tailRewriteCount rows = 0) ∧
    (∀ r, rows.getLast? = some r → r.offset = Offset.open_ →
        tailRewriteCount rows =
          (if rows.reverse.any (fun q => decide (q.offset = Offset.close))
           then (rows.reverse.takeWhile
                  (fun q => decide (¬ q.offset = Offset.close))).length
           else rows.length - 1)) ∧
    (tailRewriteCount rows = 0 →
        calculate_trade_result size rate sl rt lastClose rows
          = rows.map (perTradeTriple size rate sl rt)) ∧
    (tailRewriteCount rows ≠ 0 →
        calculate_trade_result size rate sl rt lastClose rows
          = (rows.map (perTradeTriple size rate sl rt)).take
              (rows.length - tailRewriteCount rows) ++
            (rows.drop (rows.length - tailRewriteCount rows)).map
              (modifiedTriple size rate sl lastClose rt)) := by
  refine ⟨?_, ?_, ?_, ?_⟩
  · intro r hlast hne
    have hrev : rows.reverse.head? = some r := by
      rw [List.head?_reverse]
      exact hlast
    obtain ⟨t, ht⟩ : ∃ t, rows.reverse = r :: t := by
      cases hr : rows.reverse with
      | nil => rw [hr] at hrev; cases hrev
      | cons a t =>
          rw [hr] at hrev
          injection hrev with h2
          exact ⟨t, by rw [h2]⟩
    simp [tailRewriteCount, ht, hne]
  · intro r hlast ho
    have hrev : rows.reverse.head? = some r := by
      rw [List.head?_reverse]
      exact hlast
    obtain ⟨t, ht⟩ : ∃ t, rows.reverse = r :: t := by
      cases hr : rows.reverse with
      | nil => rw [hr] at hrev; cases hrev
      | cons a t =>
          rw [hr] at hrev
          injection hrev with h2
          exact ⟨t, by rw [h2]⟩
    have hlen : rows.length = (r :: t).length := by
      rw [← List.length_reverse, ht]
    rw [tailRewriteCount.eq_def, ht]
    simp only [if_pos ho]
    rw [enumBreakClose_eq (r :: t) 0 (by simp)]
    rw [hlen]
    simp
  · intro h0
    simp [calculate_trade_result, h0]
  · intro hne
    simp [calculate_trade_result, hne]

/-- An engine holding one active limit order still in status Submitting. -/
def submittingOrderState : BtEngineState :=
  ⟨[⟨1, Direction.long, Offset.open_, 10, 1, 0, Status.submitting⟩],
    [⟨1, Direction.long, Offset.open_, 10, 1, 0, Status.submitting⟩],
    [], [], 1, 0, 0, [], 0⟩

/-- C7 counterexample: cancelling an order that is still Submitting (sent and
cancelled before any data point crossed the book) moves it straight to
Cancelled — the transition (Submitting, Cancelled) happens, never passing
NotTraded. -/
theorem c7_counterexample :
    (cancel_limit_order submittingOrderState 1).2
        = [(Status.submitting, Status.cancelled)] ∧
    Status.submitting ≠ Status.notTraded := by
  refine ⟨?_, by decide⟩
  simp [cancel_limit_order, submittingOrderState, List.find?]

/-- C7 (amended): the crossing scan only performs Submitting → NotTraded and
NotTraded → AllTraded on an active limit order (whose status is Submitting or
NotTraded), so AllTraded is indeed only reached from NotTraded; but
`cancel_limit_order` stamps Cancelled over the order's *current* status, so
Cancelled is reached directly from Submitting when the order is cancelled
before the next data point, as well as from NotTraded. -/
theorem c7_status_transitions_amended (p : LimitCrossPrices) (o : OrderData)
    (st : BtEngineState) (oid : ℕ)
    (h : o.status = Status.submitting ∨ o.status = Status.notTraded) :
    (∀ pre post, (pre, post) ∈ (crossLimitOne p o).2.2 →
        (pre = Status.submitting ∧ post = Status.notTraded) ∨
        (pre = Status.notTraded ∧ post = Status.allTraded)) ∧
    (∀ pre post, (pre, post) ∈ (cancel_limit_order st oid).2 →
        post = Status.cancelled ∧
        ∃ q ∈ st.activeLimitOrders, q.orderid = oid ∧ pre = q.status) := by
  constructor
  · intro pre post hmem
    rcases h with hs | hs
    · simp only [crossLimitOne, hs, if_pos rfl, reduceIte] at hmem
      by_cases hl : longLimitCross p { o with status := Status.notTraded }
      · rw [if_pos hl] at hmem
        simp at hmem
        rcases hmem with ⟨h1, h2⟩ | ⟨h1, h2⟩
        · exact Or.inl ⟨h1, h2⟩
        · exact Or.inr ⟨h1, h2⟩
      · by_cases hsh : shortLimitCross p { o with status := Status.notTraded }
        · rw [if_neg hl, if_pos hsh] at hmem
          simp at hmem
          rcases hmem with ⟨h1, h2⟩ | ⟨h1, h2⟩
          · exact Or.inl ⟨h1, h2⟩
          · exact Or.inr ⟨h1, h2⟩
        · rw [if_neg hl, if_neg hsh] at hmem
          simp at hmem
          exact Or.inl ⟨hmem.1, hmem.2⟩
    · have hns : ¬ o.status = Status.submitting := by
        rw [hs]
        decide
      simp only [crossLimitOne, if_neg hns] at hmem
      by_cases hl : longLimitCross p o
      · rw [if_pos hl] at hmem
        simp at hmem
        exact Or.inr ⟨by rw [hmem.1, hs], hmem.2⟩
      · by_cases hsh : shortLimitCross p o
        · rw [if_neg hl, if_pos hsh] at hmem
          simp at hmem
          exact Or.inr ⟨by rw [hmem.1, hs], hmem.2⟩
        · rw [if_neg hl, if_neg hsh] at hmem
          simp at hmem
  · intro pre post hmem
    unfold cancel_limit_order at hmem
    cases hfind : st.activeLimitOrders.find? (fun q => q.orderid = oid) with
    | none => rw [hfind] at hmem; simp at hmem
    | some q =>
        rw [hfind] at hmem
        simp at hmem
        refine ⟨hmem.2, q, List.mem_of_find?_eq_some hfind, ?_, hmem.1⟩
        have := List.find?_some hfind
        simpa using this

/-- C7 witness: the amended transition discipline applied to the concrete
one-order engine, at the (Submitting, Cancelled) transition its cancellation
performs. -/
theorem c7_status_transitions_amended_witness :
    Status.cancelled = Status.cancelled ∧
    ∃ q ∈ submittingOrderState.activeLimitOrders,
      q.orderid = 1 ∧ Status.submitting = q.status :=
  (c7_status_transitions_amended ⟨9, 11, 10, 10⟩
    ⟨1, Direction.long, Offset.open_, 10, 1, 0, Status.submitting⟩
    submittingOrderState 1 (Or.inl rfl)).2 Status.submitting Status.cancelled
    (by simp [cancel_limit_order, submittingOrderState, List.find?])

/-- C8: with `trading = false` each of buy/sell/short/cover returns the empty
list and leaves the engine untouched; with `trading = true` the order price
is snapped with `round_to` and exactly one order is appended to the limit or
stop book (by the `stop` flag) with the direction/offset of the entry point —
buy = (Long, Open), sell = (Short, Close), short = (Short, Open),
cover = (Long, Close) — and the new order's id is returned as a one-element
list. -/
theorem c8_send_order_spec (pricetick price volume : ℚ) (st : BtEngineState)
    (stop : Bool) :
    (buy false pricetick st price volume stop = (st, []) ∧
     sell false pricetick st price volume stop = (st, []) ∧
     short false pricetick st price volume stop = (st, []) ∧
     cover false pricetick st price volume stop = (st, [])) ∧
    (buy true pricetick st price volume stop
        = template_send_order true pricetick st Direction.long Offset.open_
            price volume stop ∧
     sell true pricetick st price volume stop
        = template_send_order true pricetick st Direction.short Offset.close
            price volume stop ∧
     short true pricetick st price volume stop
        = template_send_order true pricetick st Direction.short Offset.open_
            price volume stop ∧
     cover true pricetick st price volume stop
        = template_send_order true pricetick st Direction.long Offset.close
            price volume stop) ∧
    (∀ dir off,
        template_send_order true pricetick st dir off price volume false
          = ({ st with
                limitOrderCount := st.limitOrderCount + 1
                activeLimitOrders := st.activeLimitOrders ++
                  [⟨st.limitOrderCount + 1, dir, off,
                    round_to price pricetick, volume, 0, Status.submitting⟩]
                limitOrders := st.limitOrders ++
                  [⟨st.limitOrderCount + 1, dir, off,
                    round_to price pricetick, volume, 0, Status.submitting⟩] },
              [VtOrderId.limitId (st.limitOrderCount + 1)])) ∧
    (∀ dir off,
        template_send_order true pricetick st dir off price volume true
          = ({ st with
                stopOrderCount := st.stopOrderCount + 1
                activeStopOrders := st.activeStopOrders ++
                  [⟨st.stopOrderCount + 1, dir, off,
                    round_to price pricetick, volume,
                    StopOrderStatus.waiting, []⟩]
                stopOrders := st.stopOrders ++
                  [⟨st.stopOrderCount + 1, dir, off,
                    round_to price pricetick, volume,
                    StopOrderStatus.waiting, []⟩] },
              [VtOrderId.stopId (st.stopOrderCount + 1)])) := by
  exact ⟨⟨rfl, rfl, rfl, rfl⟩, ⟨rfl, rfl, rfl, rfl⟩,
    fun _ _ => rfl, fun _ _ => rfl⟩

/-- C9 counterexample: two settings with equal target values — the sorted
output keeps both, so it is *not* strictly descending by target value
(descending holds only non-strictly; ties are possible inputs). -/
theorem c9_counterexample :
    ¬ List.Pairwise (fun a b => b.2.1 < a.2.1)
        (sortResultValues
          [(("A" : String), (1 : ℚ), Unit.unit), ("B", 1, Unit.unit)]) := by
  intro hpair
  simp only [sortResultValues] at hpair
  simp [List.mergeSort, List.splitInTwo, List.splitAt, List.splitAt.go,
    List.merge] at hpair

/-- C9 (amended): `run_optimization` sorts its collected result triples
descending by target value — non-strictly rather than strictly, since equal
target values can occur; the output is a permutation of the input, the
subsequence of triples carrying any one target value is preserved exactly
(the sort is stable), and on the three-setting grid with targets A:1.0,
B:3.0, C:2.0 the order is [B, C, A]. -/
theorem c9_sort_amended {α β : Type} (l : List (α × ℚ × β)) :
    List.Pairwise (fun a b => b.2.1 ≤ a.2.1) (sortResultValues l) ∧
    (sortResultValues l).Perm l ∧
    (∀ q : ℚ, (sortResultValues l).filter (fun x => decide (x.2.1 = q))
        = l.filter (fun x => decide (x.2.1 = q))) ∧
    sortResultValues
        [(("A" : String), (1 : ℚ), Unit.unit), ("B", 3, Unit.unit),
          ("C", 2, Unit.unit)]
      = [("B", 3, Unit.unit), ("C", 2, Unit.unit), ("A", 1, Unit.unit)] := by
  have htrans : ∀ (a b c : α × ℚ × β),
      (fun x y => decide (y.2.1 ≤ x.2.1)) a b = true →
      (fun x y => decide (y.2.1 ≤ x.2.1)) b c = true →
      (fun x y => decide (y.2.1 ≤ x.2.1)) a c = true := by
    intro a b c hab hbc
    simp only [decide_eq_true_eq] at hab hbc ⊢
    exact le_trans hbc hab
  have htotal : ∀ (a b : α × ℚ × β),
      ((fun x y => decide (y.2.1 ≤ x.2.1)) a b
        || (fun x y => decide (y.2.1 ≤ x.2.1)) b a) = true := by
    intro a b
    simp only [Bool.or_eq_true, decide_eq_true_eq]
    exact le_total b.2.1 a.2.1
  refine ⟨?_, List.mergeSort_perm l _, ?_, ?_⟩
  · have hs := @List.sorted_mergeSort (α × ℚ × β)
      (fun a b => decide (b.2.1 ≤ a.2.1)) htrans htotal l
    exact hs.imp (fun h => by simpa using h)
  · intro q
    have hpair : (l.filter (fun x => decide (x.2.1 = q))).Pairwise
        (fun a b => (fun x y => decide (y.2.1 ≤ x.2.1)) a b = true) := by
      refine List.pairwise_of_forall_mem_list ?_
      intro a ha b hb
      have ha2 : a.2.1 = q := by
        have := (List.mem_filter.mp ha).2
        simpa using this
      have hb2 : b.2.1 = q := by
        have := (List.mem_filter.mp hb).2
        simpa using this
      simp [ha2, hb2]
    have hsub : List.Sublist (l.filter (fun x => decide (x.2.1 = q)))
        (List.mergeSort l (fun a b => decide (b.2.1 ≤ a.2.1))) :=
      List.sublist_mergeSort htrans htotal hpair (List.filter_sublist l)
    have hsub2 := hsub.filter (fun x => decide (x.2.1 = q))
    rw [List.filter_filter] at hsub2
    have hidem : l.filter
        (fun a => decide (a.2.1 = q) && decide (a.2.1 = q))
        = l.filter (fun a => decide (a.2.1 = q)) := by
      simp [Bool.and_self]
    rw [hidem] at hsub2
    have hperm : List.Perm
        ((List.mergeSort l (fun a b => decide (b.2.1 ≤ a.2.1))).filter
          (fun x => decide (x.2.1 = q)))
        (l.filter (fun x => decide (x.2.1 = q))) :=
      (List.mergeSort_perm l _).filter _
    exact (hsub2.eq_of_length hperm.length_eq.symm).symm
  · simp only [sortResultValues]
    simp [List.mergeSort, List.splitInTwo, List.splitAt, List.splitAt.go,
      List.merge]
    norm_num

/-- C10: in the `df is None` branch of `calculate_statistics` every key's
value is zeroed *except* that `final_balance` is never assigned, so building
the statistics dictionary raises `NameError('final_balance')` instead of
returning a map — the call cannot return an all-zero statistics map. -/
theorem c10_statistics_none_raises (capital : ℚ) :
    calculate_statistics_none capital = Except.error "final_balance" ∧
    lookupLocal noneBranchLocals "final_balance" = Option.none ∧
    (∀ res, calculate_statistics_none capital ≠ Except.ok res) := by
  have h1 : calculate_statistics_none capital
      = Except.error "final_balance" := rfl
  refine ⟨h1, rfl, ?_⟩
  intro res h
  rw [h1] at h
  cases h
